import Mathlib

/-!
Verification of the checkpointed step-execution engine specified for this
repository, together with the concrete tool functions of the `session2`
scripts (`update_stock`, `deliberative_schedule`, `coordinator`).

The engine itself (Graph/compile, CheckpointStore, Executor, the
InterruptController breakpoint mechanism) lives in the external workflow
framework the repository scripts call into; only its callers are in the
repository, so those components are modelled from the specification text.
The `session2` tool functions are translated directly from the Python
sources.
-/

namespace CaltechAdvanced

/-- Generic association-list update with string keys: replaces the value at
the first occurrence of the key, or appends the binding when the key is
absent.  This is the observable behaviour of a Python dict assignment
`d[k] = v` as seen through `d.get`. -/
def setAssoc {α : Type} : List (String × α) → String → α → List (String × α)
  | [], k, v => [(k, v)]
  | p :: t, k, v => if p.1 == k then (k, v) :: t else p :: setAssoc t k v

/-- Modelled from the spec: the engine's State (section 3) — "an ordered
mapping from field name to value"; values are kept opaque as strings.  The
concrete framework State type is not part of the repository sources. -/
abbrev State := List (String × String)

/-- Modelled from the spec: merging a Step's partial update into State
(sections 3 and 4.4) — "field-wise overwrite", additive, never a full
replace.  Each field of the update overwrites or extends the base state. -/
def mergeState (s : State) (u : State) : State :=
  u.foldl (fun acc kv => setAssoc acc kv.1 kv.2) s

/-- Modelled from the spec: a graph definition before compilation
(section 4.1) — registered Steps (`define`), directed edges (`connect`,
with "START" legal as a source), and the breakpoint set handed to the
InterruptController at compile time (section 4.3).  A Step is a function
from State to a partial State update; a `none` result models a raised
StepFault (section 7). -/
structure GraphDef where
  nodes : List (String × (State → Option State))
  edges : List (String × String)
  interruptBefore : List String

/-- Modelled from the spec: the compile-time structural error (section 7). -/
inductive CompileError where
  | ErrGraphInvalid
deriving DecidableEq

/-- Whether a list of names contains a duplicate. -/
def dupName : List String → Bool
  | [] => false
  | n :: t => t.contains n || dupName t

/-- Names of the registered Steps of a graph definition. -/
def nodeNames (d : GraphDef) : List String := d.nodes.map (fun p => p.1)

/-- Number of outgoing edges of a name in a graph definition. -/
def outCount (d : GraphDef) (n : String) : Nat :=
  (d.edges.filter (fun e => e.1 == n)).length

/-- Modelled from the spec: a compiled Graph (sections 3 and 4.1) —
post-compile the Executor trusts it. -/
structure CGraph where
  steps : List (String × (State → Option State))
  edges : List (String × String)
  breakpoints : List String

/-- Modelled from the spec: `compile()` validation (section 4.1) — fails
with `ErrGraphInvalid` when a Step name is registered twice, when START
lacks exactly one outgoing edge, when an edge dangles to an unregistered
Step, or when a Step has multiple outgoing edges (a Step with no outgoing
edge is terminal, section 3: "exactly one designated next Step, or
terminates the run"). -/
def compile (d : GraphDef) : Except CompileError CGraph :=
  if !dupName (nodeNames d)
      && outCount d "START" == 1
      && d.edges.all (fun e => (nodeNames d).contains e.2)
      && (nodeNames d).all (fun n => outCount d n ≤ 1) then
    .ok ⟨d.nodes, d.edges, d.interruptBefore⟩
  else
    .error .ErrGraphInvalid

/-- Structural invalidity of a graph definition, stated the way the claim
enumerates it: a dangling edge to an unregistered Step, a non-terminal
Step with zero or multiple outgoing edges, a duplicated Step name, or
START without exactly one outgoing edge.  A Step is non-terminal when it
has at least one outgoing edge. -/
def structurallyInvalid (d : GraphDef) : Prop :=
  (∃ e ∈ d.edges, e.2 ∉ nodeNames d)
    ∨ (∃ n ∈ nodeNames d, outCount d n ≠ 0 ∧ (outCount d n = 0 ∨ 2 ≤ outCount d n))
    ∨ ¬ (nodeNames d).Nodup
    ∨ outCount d "START" ≠ 1

/-- Modelled from the spec: the terminal sentinel pending-step name
(section 4.4, step 1) — a checkpoint whose pending step is this sentinel
marks a completed run. -/
def endSentinel : String := "__end__"

/-- Modelled from the spec: the Checkpoint record (section 3) —
`{ threadId, stepIndex, pendingStepName, state }`; the threadId is the
store key, so it is not repeated inside the record. -/
structure Checkpoint where
  stepIndex : Nat
  pendingStepName : String
  state : State
deriving DecidableEq

/-- Step lookup in a compiled graph. -/
def stepOf (g : CGraph) (s : String) : Option (State → Option State) :=
  g.steps.lookup s

/-- Modelled from the spec: `Graph.successor` (sections 3 and 4.4) — the
unique next Step of a Step, or the terminal sentinel when none exists. -/
def succOf (g : CGraph) (s : String) : String :=
  (g.edges.lookup s).getD endSentinel

/-- Result of one scheduling loop, carrying the last persisted checkpoint. -/
inductive LoopResult where
  | Completed (cp : Checkpoint)
  | Paused (cp : Checkpoint)
  | Fault (cp : Checkpoint)
  | OutOfFuel (cp : Checkpoint)
deriving DecidableEq

/-- The checkpoint carried by a loop result. -/
def LoopResult.cp : LoopResult → Checkpoint
  | .Completed c => c
  | .Paused c => c
  | .Fault c => c
  | .OutOfFuel c => c

/-- Modelled from the spec: the Executor scheduling loop (section 4.4,
`resume` steps 1-3).  Returns the loop outcome together with the trace of
executed Steps, each paired with the State it was invoked on.  The fuel
argument bounds the number of iterations; the loop itself terminates on
the sentinel, pauses on a breakpoint, and aborts on a Step fault without
advancing the checkpoint. -/
def resumeLoop : Nat → CGraph → Checkpoint → LoopResult × List (String × State)
  | 0, _, cp => (.OutOfFuel cp, [])
  | fuel + 1, g, cp =>
    let s := cp.pendingStepName
    if s == endSentinel then (.Completed cp, [])
    else if g.breakpoints.contains s then (.Paused cp, [])
    else
      match stepOf g s with
      | none => (.Fault cp, [])
      | some f =>
        match f cp.state with
        | none => (.Fault cp, [])
        | some u =>
          let cp' : Checkpoint :=
            ⟨cp.stepIndex + 1, succOf g s, mergeState cp.state u⟩
          let r := resumeLoop fuel g cp'
          (r.1, (s, cp.state) :: r.2)

/-- Modelled from the spec: the CheckpointStore (section 4.2) — keyed
storage of the latest checkpoint per threadId. -/
abbrev Store := List (String × Checkpoint)

/-- Modelled from the spec: `CheckpointStore.get` (section 4.2). -/
def getCp (st : Store) (t : String) : Option Checkpoint :=
  st.lookup t

/-- Modelled from the spec: `CheckpointStore.put` (section 4.2) —
overwrites any existing latest checkpoint for the threadId. -/
def putCp (st : Store) (t : String) (cp : Checkpoint) : Store :=
  setAssoc st t cp

/-- Modelled from the spec: the observable outcome of `run`/`resume`
(section 6) — `Completed(finalState)` or `Paused(pendingStepName,
currentState)`, plus the error outcomes of section 7 and an explicit
out-of-fuel marker of the bounded model. -/
inductive RunOutcome where
  | Completed (finalState : State)
  | Paused (pendingStepName : String) (currentState : State)
  | StepFault
  | ErrUnknownThread
  | Exhausted
deriving DecidableEq

/-- Modelled from the spec: `Executor.resume(threadId)` (section 4.4) —
loads the latest checkpoint (ErrUnknownThread when absent), runs the
scheduling loop, and persists the loop's last checkpoint.  Returns the
outcome, the updated store, and the trace of executed Steps. -/
def resumeE (g : CGraph) (fuel : Nat) (st : Store) (t : String) :
    RunOutcome × Store × List (String × State) :=
  match getCp st t with
  | none => (.ErrUnknownThread, st, [])
  | some cp =>
    let r := resumeLoop fuel g cp
    match r.1 with
    | .Completed cp' => (.Completed cp'.state, putCp st t cp', r.2)
    | .Paused cp' => (.Paused cp'.pendingStepName cp'.state, putCp st t cp', r.2)
    | .Fault cp' => (.StepFault, putCp st t cp', r.2)
    | .OutOfFuel cp' => (.Exhausted, putCp st t cp', r.2)

/-- Modelled from the spec: the first Step after START (section 4.4, `run`). -/
def entryStep (g : CGraph) : String :=
  succOf g "START"

/-- Modelled from the spec: `Executor.run(initialState, threadId)`
(section 4.4) — creates and persists a fresh checkpoint when the thread is
unknown, then behaves as `resume`. -/
def runE (g : CGraph) (fuel : Nat) (st : Store) (t : String) (s0 : State) :
    RunOutcome × Store × List (String × State) :=
  match getCp st t with
  | some _ => resumeE g fuel st t
  | none => resumeE g fuel (putCp st t ⟨0, entryStep g, s0⟩) t

/-- Modelled from the spec: `Executor.updateState(threadId, partialState,
asStepName)` (section 4.4) — merges the partial state into the latest
checkpoint exactly as a Step's output would be merged and sets the pending
step to the successor of `asStepName`; `none` models ErrUnknownThread. -/
def updateStateE (g : CGraph) (st : Store) (t : String) (p : State)
    (asStepName : String) : Option Store :=
  match getCp st t with
  | none => none
  | some cp =>
    some (putCp st t ⟨cp.stepIndex + 1, succOf g asStepName, mergeState cp.state p⟩)

/-- Modelled from the spec: `getState(threadId)` (section 6), exposing the
latest checkpoint's state. -/
def getStateE (st : Store) (t : String) : Option State :=
  (getCp st t).map (fun cp => cp.state)

/-- Whether iterating `succOf` from a name reaches the terminal sentinel
within the given number of hops. -/
def reachesEnd (g : CGraph) : Nat → String → Bool
  | 0, s => s == endSentinel
  | n + 1, s => s == endSentinel || reachesEnd g n (succOf g s)

/-- The Step names along the successor chain from a name, up to the given
number of hops or the terminal sentinel. -/
def chainNodes (g : CGraph) : Nat → String → List String
  | 0, _ => []
  | n + 1, s => if s == endSentinel then [] else s :: chainNodes g n (succOf g s)

/-- One external call into the Executor, tagged with its threadId. -/
inductive EngineCall where
  | runC (s0 : State) (t : String)
  | resumeC (t : String)
  | updateC (p : State) (asStepName : String) (t : String)

/-- The threadId an engine call addresses. -/
def callThread : EngineCall → String
  | .runC _ t => t
  | .resumeC t => t
  | .updateC _ _ t => t

/-- Effect of one engine call on the shared checkpoint store (the outcome
value is discarded; an unknown-thread `updateState` leaves the store
unchanged). -/
def applyCall (g : CGraph) (fuel : Nat) (st : Store) : EngineCall → Store
  | .runC s0 t => (runE g fuel st t s0).2.1
  | .resumeC t => (resumeE g fuel st t).2.1
  | .updateC p a t => (updateStateE g st t p a).getD st

/-- Effect of a sequence of engine calls on the shared checkpoint store. -/
def applyCalls (g : CGraph) (fuel : Nat) (st : Store) (cs : List EngineCall) : Store :=
  cs.foldl (applyCall g fuel) st

/-- Effect of one engine call on a single thread's latest checkpoint,
defined without reference to the rest of the store. -/
def threadView (g : CGraph) (fuel : Nat) : Option Checkpoint → EngineCall → Option Checkpoint
  | some cp, .runC _ _ => some ((resumeLoop fuel g cp).1.cp)
  | none, .runC s0 _ => some ((resumeLoop fuel g ⟨0, entryStep g, s0⟩).1.cp)
  | some cp, .resumeC _ => some ((resumeLoop fuel g cp).1.cp)
  | none, .resumeC _ => none
  | some cp, .updateC p a _ =>
    some ⟨cp.stepIndex + 1, succOf g a, mergeState cp.state p⟩
  | none, .updateC _ _ _ => none

/-- The three-step chain `A -> B -> C` of the human-in-the-loop example,
compiled with B as the breakpoint; the Step bodies are parameters. -/
def cgABC (fA fB fC : State → Option State) : CGraph :=
  { steps := [("A", fA), ("B", fB), ("C", fC)]
    edges := [("START", "A"), ("A", "B"), ("B", "C")]
    breakpoints := ["B"] }

/-- The graph definition whose compilation yields `cgABC`. -/
def gABC (fA fB fC : State → Option State) : GraphDef :=
  { nodes := [("A", fA), ("B", fB), ("C", fC)]
    edges := [("START", "A"), ("A", "B"), ("B", "C")]
    interruptBefore := ["B"] }

/-- A sample total Step used to instantiate the generic theorems. -/
def stepLogA : State → Option State := fun _ => some [("log", "A")]

/-- A sample total Step used to instantiate the generic theorems. -/
def stepLogB : State → Option State := fun _ => some [("log", "B")]

/-- A sample total Step used to instantiate the generic theorems. -/
def stepLogC : State → Option State := fun _ => some [("log", "C")]

/-- A sample always-faulting Step used to instantiate the generic theorems. -/
def stepBoom : State → Option State := fun _ => none

/-- A two-step breakpoint-free chain used to instantiate the generic
theorems. -/
def cgAB : CGraph :=
  { steps := [("A", stepLogA), ("B", stepLogB)]
    edges := [("START", "A"), ("A", "B")]
    breakpoints := [] }

/-- Numeric value of a nonempty all-digit character list, Python-style. -/
def digitsVal (cs : List Char) : Option Nat :=
  if cs ≠ [] && cs.all Char.isDigit then
    some (cs.foldl (fun a c => a * 10 + (c.toNat - 48)) 0)
  else
    none

/-- Python `str.strip()` whitespace class (ASCII part). -/
def isPySpace (c : Char) : Bool :=
  c == ' ' || c == '\t' || c == '\n' || c == '\r' || c == '\x0b' || c == '\x0c'

/-- Python `str.strip()`: drop leading and trailing whitespace. -/
def pyStrip (cs : List Char) : List Char :=
  ((cs.dropWhile isPySpace).reverse.dropWhile isPySpace).reverse

/-- Python `str.lower()` (ASCII part). -/
def pyLower (cs : List Char) : List Char :=
  cs.map Char.toLower

/-- Python `s.split(",")` on the character list: split at every comma,
never merging adjacent separators. -/
def splitComma : List Char → List (List Char)
  | [] => [[]]
  | c :: cs =>
    match splitComma cs with
    | [] => [[]]
    | h :: t => if c == ',' then [] :: h :: t else (c :: h) :: t

/-- Python `int(s)`: strip, then optional sign followed by digits;
anything else raises (returns `none`).  Underscore digit grouping,
accepted by Python, is not modelled. -/
def pyInt (cs : List Char) : Option Int :=
  match pyStrip cs with
  | '-' :: rest => (digitsVal rest).map (fun n => -(n : Int))
  | '+' :: rest => (digitsVal rest).map (fun n => (n : Int))
  | ds => (digitsVal ds).map (fun n => (n : Int))

/-- The warehouse stock dictionary of the `session2` scripts, observed
through `get`/assignment: an association list from item name to quantity. -/
abbrev Stock := List (String × Int)

/-- The parse prefix shared by `update_stock` and `deliberative_schedule`:
`item_qty.split(",")` must yield exactly two parts (tuple unpacking raises
otherwise), the item is stripped and lowercased, and the quantity parsed
with `int`.  Any raised error is caught by the surrounding `try`. -/
def parseItemQty (item_qty : String) : Option (String × Int) :=
  match splitComma item_qty.toList with
  | [itRaw, qtyRaw] =>
    match pyInt qtyRaw with
    | some qty => some (String.mk (pyLower (pyStrip itRaw)), qty)
    | none => none
  | _ => none

/-- `update_stock` from `src/session2/2_mutliagent_exercise1.py` (and
identically `4_coordinating_agent.py`): adds the parsed quantity to the
item's stock entry, creating it from default 0; on any parse error returns
the `[Stock] Update error:` message with the stock untouched.  Returns the
tool message together with the resulting stock. -/
def update_stock (stock : Stock) (item_qty : String) : String × Stock :=
  match parseItemQty item_qty with
  | some (it, qty) =>
    ("[Stock] Successfully added " ++ toString qty ++ " units of " ++ it ++ ".",
      setAssoc stock it ((stock.lookup it).getD 0 + qty))
  | none => ("[Stock] Update error: " ++ "invalid item_qty", stock)

/-- `deliberative_schedule` from
`src/session2/3_theory_of_mind_example.py`: on a well-formed `item, qty`
with current stock at least `qty`, decrements the stock and appends the
order; otherwise reports and changes nothing.  Returns the tool message,
the resulting stock, and the resulting outbound orders. -/
def deliberative_schedule (stock : Stock) (orders : List (String × Int))
    (item_qty : String) : String × Stock × List (String × Int) :=
  match parseItemQty item_qty with
  | some (it, qty) =>
    let cur := (stock.lookup it).getD 0
    if qty ≤ cur then
      ("[Deliberative] Scheduled " ++ toString qty ++ " of " ++ it ++ ".",
        setAssoc stock it (cur - qty), orders ++ [(it, qty)])
    else
      ("[Deliberative] Not enough stock for " ++ it ++ ".", stock, orders)
  | none => ("[Deliberative] Error: " ++ "invalid item_qty", stock, orders)

/-- Whether the first character list is a leading segment of the second. -/
def listStarts : List Char → List Char → Bool
  | [], _ => true
  | _ :: _, [] => false
  | a :: as, b :: bs => a == b && listStarts as bs

/-- Whether the first character list occurs contiguously in the second
(Python's `needle in hay` on strings). -/
def listSub (n : List Char) : List Char → Bool
  | [] => listStarts n []
  | b :: bs => listStarts n (b :: bs) || listSub n bs

/-- Python `needle in hay` substring test on strings. -/
def strContains (hay needle : String) : Bool :=
  listSub needle.toList hay.toList

/-- Python `str.lower()` at the string level. -/
def strLower (s : String) : String :=
  String.mk (pyLower s.toList)

/-- `coordinator` from `src/session2/2_mutliagent_exercise1.py`: keyword
routing on the lowercased input with stock > delivery > priority
precedence. -/
def coordinator (user_input : String) : String :=
  let txt_lower := strLower user_input
  if strContains txt_lower "stock" || strContains txt_lower "update" then
    "stock"
  else if strContains txt_lower "delivery" || strContains txt_lower "schedule"
      || strContains txt_lower "cost" then
    "delivery"
  else if strContains txt_lower "urgent" || strContains txt_lower "priority" then
    "priority"
  else
    "none"

end CaltechAdvanced

namespace CaltechAdvanced

theorem lookup_setAssoc {α : Type} (l : List (String × α)) (k : String) (v : α)
    (k' : String) :
    List.lookup k' (setAssoc l k v) = if k' == k then some v else List.lookup k' l := by
  induction l with
  | nil =>
    by_cases hk' : k' = k
    · simp [setAssoc, List.lookup, hk']
    · have hb : (k' == k) = false := by simpa using hk'
      simp [setAssoc, List.lookup, hb, hk']
  | cons p t ih =>
    by_cases hpk : p.1 == k
    · simp only [setAssoc, hpk, if_true, List.lookup]
      by_cases hk' : k' == k
      · simp [hk']
      · have hk'p : (k' == p.1) = false := by
          have h1 : p.1 = k := by simpa using hpk
          have h2 : ¬ k' = k := by simpa using hk'
          simp [h1, h2]
        simp [hk', hk'p]
    · simp only [setAssoc, hpk, if_false, List.lookup]
      by_cases hk'p : k' == p.1
      · have h1 : ¬ p.1 = k := by simpa using hpk
        have h2 : k' = p.1 := by simpa using hk'p
        have : (k' == k) = false := by simp [h2, h1]
        simp [hk'p, this]
      · simp [hk'p, ih]

theorem setAssoc_idem {α : Type} (l : List (String × α)) (k : String) (v : α) :
    setAssoc (setAssoc l k v) k v = setAssoc l k v := by
  induction l with
  | nil => simp [setAssoc]
  | cons p t ih =>
    by_cases hpk : p.1 == k
    · simp [setAssoc, hpk]
    · simp [setAssoc, hpk, ih]

theorem mem_setAssoc {α : Type} (l : List (String × α)) (k : String) (v : α)
    (kv : String × α) (h : kv ∈ setAssoc l k v) : kv = (k, v) ∨ kv ∈ l := by
  induction l with
  | nil => simpa [setAssoc] using h
  | cons p t ih =>
    by_cases hpk : p.1 == k
    · simp only [setAssoc, hpk, if_true] at h
      rcases List.mem_cons.mp h with h1 | h2
      · exact Or.inl h1
      · exact Or.inr (List.mem_cons_of_mem _ h2)
    · simp only [setAssoc, hpk, if_false] at h
      rcases List.mem_cons.mp h with h1 | h2
      · exact Or.inr (h1 ▸ List.mem_cons_self _ _)
      · rcases ih h2 with h3 | h4
        · exact Or.inl h3
        · exact Or.inr (List.mem_cons_of_mem _ h4)

theorem mem_of_lookup_eq_some {α : Type} {l : List (String × α)} {k : String} {v : α}
    (h : List.lookup k l = some v) : (k, v) ∈ l := by
  induction l with
  | nil => simp [List.lookup] at h
  | cons p t ih =>
    rw [List.lookup] at h
    by_cases hk : k == p.1
    · have h1 : k = p.1 := by simpa using hk
      rw [hk] at h
      simp only [Option.some.injEq] at h
      exact h1 ▸ h ▸ List.mem_cons_self _ _
    · rw [Bool.not_eq_true] at hk
      rw [hk] at h
      exact List.mem_cons_of_mem _ (ih h)

theorem lookup_mergeState_of_not_key (s u : State) (k : String)
    (h : ∀ kv ∈ u, kv.1 ≠ k) :
    List.lookup k (mergeState s u) = List.lookup k s := by
  induction u generalizing s with
  | nil => rfl
  | cons a u' ih =>
    have hstep : mergeState s (a :: u') = mergeState (setAssoc s a.1 a.2) u' := rfl
    rw [hstep, ih _ (fun kv hkv => h kv (List.mem_cons_of_mem _ hkv)), lookup_setAssoc]
    have hne : ¬ k = a.1 := fun he => (h a (List.mem_cons_self _ _)) he.symm
    simp [hne]

theorem isSome_lookup_mergeState (s u : State) (k : String)
    (h : (List.lookup k s).isSome) : (List.lookup k (mergeState s u)).isSome := by
  induction u generalizing s with
  | nil => exact h
  | cons a u' ih =>
    have hstep : mergeState s (a :: u') = mergeState (setAssoc s a.1 a.2) u' := rfl
    rw [hstep]
    apply ih
    rw [lookup_setAssoc]
    by_cases hk : k = a.1
    · simp [hk]
    · simpa [hk] using h

/-- C3: for every State `s` and every Step output `u`, the merge of `u`
into `s` preserves every field of `s` absent from `u` unchanged, and never
removes any field present before the merge. -/
theorem merge_preserves_untouched_fields (s u : State) (k : String) :
    ((∀ kv ∈ u, kv.1 ≠ k) → List.lookup k (mergeState s u) = List.lookup k s)
    ∧ ((List.lookup k s).isSome → (List.lookup k (mergeState s u)).isSome) :=
  ⟨lookup_mergeState_of_not_key s u k, isSome_lookup_mergeState s u k⟩

/-- C3 witness: a Step output touching only field `b` leaves field `a`
untouched and present. -/
theorem merge_preserves_untouched_fields_witness :
    List.lookup "a" (mergeState [("a", "1"), ("b", "2")] [("b", "3")])
        = List.lookup "a" [("a", "1"), ("b", "2")]
    ∧ (List.lookup "a" (mergeState [("a", "1"), ("b", "2")] [("b", "3")])).isSome :=
  ⟨(merge_preserves_untouched_fields [("a", "1"), ("b", "2")] [("b", "3")] "a").1
      (by decide),
    (merge_preserves_untouched_fields [("a", "1"), ("b", "2")] [("b", "3")] "a").2
      (by decide)⟩

/-- C1: on the compiled chain `A -> B -> C` with breakpoint B, `run`
executes A and pauses at B with the state after A; the stored checkpoint
still has pending step B and that state, and a further `resume` without
`updateState` pauses again at B with the same state, executing nothing
(empty trace). -/
theorem breakpoint_pauses_and_repauses (fA fB fC : State → Option State)
    (s0 uA : State) (t : String) (fuel fuel2 : Nat) (hA : fA s0 = some uA) :
    runE (cgABC fA fB fC) (fuel + 2) [] t s0
      = (.Paused "B" (mergeState s0 uA),
          [(t, ⟨1, "B", mergeState s0 uA⟩)], [("A", s0)])
    ∧ resumeE (cgABC fA fB fC) (fuel2 + 1) [(t, ⟨1, "B", mergeState s0 uA⟩)] t
      = (.Paused "B" (mergeState s0 uA),
          [(t, ⟨1, "B", mergeState s0 uA⟩)], []) := by
  constructor
  · simp [runE, resumeE, resumeLoop, getCp, putCp, setAssoc, stepOf, succOf,
      cgABC, endSentinel, entryStep, List.lookup, List.contains, List.elem, hA]
  · simp [resumeE, resumeLoop, getCp, putCp, setAssoc, stepOf, succOf,
      cgABC, endSentinel, List.lookup, List.contains, List.elem]

/-- C1 witness: the scenario instantiated with concrete Steps and state. -/
theorem breakpoint_pauses_and_repauses_witness :
    runE (cgABC stepLogA stepLogB stepLogC) 2 [] "t" [("x", "0")]
      = (.Paused "B" (mergeState [("x", "0")] [("log", "A")]),
          [("t", ⟨1, "B", mergeState [("x", "0")] [("log", "A")]⟩)],
          [("A", [("x", "0")])])
    ∧ resumeE (cgABC stepLogA stepLogB stepLogC) 1
        [("t", ⟨1, "B", mergeState [("x", "0")] [("log", "A")]⟩)] "t"
      = (.Paused "B" (mergeState [("x", "0")] [("log", "A")]),
          [("t", ⟨1, "B", mergeState [("x", "0")] [("log", "A")]⟩)], []) :=
  breakpoint_pauses_and_repauses stepLogA stepLogB stepLogC
    [("x", "0")] [("log", "A")] "t" 0 0 rfl

/-- C2: `updateState` merges the partial state into the latest checkpoint
exactly as a Step output is merged and sets the pending step to the
successor of `asStepName`; on the paused chain `A -> B -> C` with pending
step B, injecting `x=1` as B and resuming executes only C and completes
with `x=1` present and C's output merged on top. -/
theorem updateState_advances_past_breakpoint (g : CGraph) (st : Store)
    (t : String) (cp : Checkpoint) (p : State) (a : String)
    (fA fB fC : State → Option State) (s uC : State) (i fuel : Nat)
    (hcp : getCp st t = some cp)
    (hC : fC (mergeState s [("x", "1")]) = some uC)
    (hx : ∀ kv ∈ uC, kv.1 ≠ "x") :
    updateStateE g st t p a
      = some (putCp st t ⟨cp.stepIndex + 1, succOf g a, mergeState cp.state p⟩)
    ∧ updateStateE (cgABC fA fB fC) [(t, ⟨i, "B", s⟩)] t [("x", "1")] "B"
      = some [(t, ⟨i + 1, "C", mergeState s [("x", "1")]⟩)]
    ∧ resumeE (cgABC fA fB fC) (fuel + 2)
        [(t, ⟨i + 1, "C", mergeState s [("x", "1")]⟩)] t
      = (.Completed (mergeState (mergeState s [("x", "1")]) uC),
          [(t, ⟨i + 2, endSentinel, mergeState (mergeState s [("x", "1")]) uC⟩)],
          [("C", mergeState s [("x", "1")])])
    ∧ List.lookup "x" (mergeState (mergeState s [("x", "1")]) uC) = some "1" := by
  refine ⟨?_, ?_, ?_, ?_⟩
  · simp [updateStateE, hcp, putCp]
  · simp [updateStateE, getCp, putCp, setAssoc, succOf, cgABC, List.lookup]
  · simp [resumeE, resumeLoop, getCp, putCp, setAssoc, stepOf, succOf,
      cgABC, endSentinel, List.lookup, List.contains, List.elem, hC]
  · rw [lookup_mergeState_of_not_key _ _ _ hx]
    have h1 : mergeState s [("x", "1")] = setAssoc s "x" "1" := rfl
    rw [h1, lookup_setAssoc]
    simp

/-- C2 witness: the scenario instantiated with concrete Steps and states. -/
theorem updateState_advances_past_breakpoint_witness :
    updateStateE cgAB [("t", ⟨0, "A", []⟩)] "t" [("p", "1")] "A"
      = some (putCp [("t", ⟨0, "A", []⟩)] "t"
          ⟨1, succOf cgAB "A", mergeState [] [("p", "1")]⟩)
    ∧ updateStateE (cgABC stepLogA stepLogB stepLogC)
        [("t", ⟨1, "B", [("y", "2")]⟩)] "t" [("x", "1")] "B"
      = some [("t", ⟨2, "C", mergeState [("y", "2")] [("x", "1")]⟩)]
    ∧ resumeE (cgABC stepLogA stepLogB stepLogC) 2
        [("t", ⟨2, "C", mergeState [("y", "2")] [("x", "1")]⟩)] "t"
      = (.Completed (mergeState (mergeState [("y", "2")] [("x", "1")]) [("log", "C")]),
          [("t", ⟨3, endSentinel,
            mergeState (mergeState [("y", "2")] [("x", "1")]) [("log", "C")]⟩)],
          [("C", mergeState [("y", "2")] [("x", "1")])])
    ∧ List.lookup "x"
        (mergeState (mergeState [("y", "2")] [("x", "1")]) [("log", "C")]) = some "1" :=
  updateState_advances_past_breakpoint cgAB [("t", ⟨0, "A", []⟩)] "t"
    ⟨0, "A", []⟩ [("p", "1")] "A" stepLogA stepLogB stepLogC
    [("y", "2")] [("log", "C")] 1 0 rfl rfl (by decide)

/-- C4: when the pending Step faults during `resume`, no new checkpoint is
persisted — the store still reports the same pending step and pre-Step
state — and a subsequent successful `resume` re-executes that same Step
from that same input state (first trace entry). -/
theorem fault_does_not_advance_checkpoint (g g' : CGraph) (st : Store)
    (t : String) (cp : Checkpoint) (f f' : State → Option State) (u' : State)
    (fuel fuel' : Nat)
    (hcp : getCp st t = some cp)
    (hne : cp.pendingStepName ≠ endSentinel)
    (hnb : cp.pendingStepName ∉ g.breakpoints)
    (hf : stepOf g cp.pendingStepName = some f)
    (hfault : f cp.state = none)
    (hnb2 : cp.pendingStepName ∉ g'.breakpoints)
    (hf2 : stepOf g' cp.pendingStepName = some f')
    (hok : f' cp.state = some u') :
    resumeE g (fuel + 1) st t = (.StepFault, putCp st t cp, [])
    ∧ getCp (putCp st t cp) t = some cp
    ∧ ∃ out st2 rest,
        resumeE g' (fuel' + 1) (putCp st t cp) t
          = (out, st2, (cp.pendingStepName, cp.state) :: rest) := by
  have hne' : (cp.pendingStepName == endSentinel) = false := by simpa using hne
  have hnb2' : g'.breakpoints.contains cp.pendingStepName = false := by simpa using hnb2
  have hput : getCp (putCp st t cp) t = some cp := by
    rw [getCp, putCp, lookup_setAssoc]; simp
  refine ⟨?_, hput, ?_⟩
  · simp [resumeE, hcp, resumeLoop, hne', hnb, hf, hfault]
  · simp only [resumeE, hput, resumeLoop, hne', hnb2', hf2, hok, Bool.false_eq_true,
      if_false]
    rcases hres : resumeLoop fuel' g'
        ⟨cp.stepIndex + 1, succOf g' cp.pendingStepName, mergeState cp.state u'⟩
      with ⟨lr, tr⟩
    cases lr <;> exact ⟨_, _, _, rfl⟩

/-- C4 witness: Step A faults, the checkpoint stays put, and a retried
`resume` against the repaired graph re-runs A on the same state. -/
theorem fault_does_not_advance_checkpoint_witness :
    resumeE (cgABC stepBoom stepLogB stepLogC) 1 [("t", ⟨0, "A", [("x", "0")]⟩)] "t"
      = (.StepFault,
          putCp [("t", ⟨0, "A", [("x", "0")]⟩)] "t" ⟨0, "A", [("x", "0")]⟩, [])
    ∧ getCp (putCp [("t", ⟨0, "A", [("x", "0")]⟩)] "t" ⟨0, "A", [("x", "0")]⟩) "t"
      = some ⟨0, "A", [("x", "0")]⟩
    ∧ ∃ out st2 rest,
        resumeE (cgABC stepLogA stepLogB stepLogC) 1
          (putCp [("t", ⟨0, "A", [("x", "0")]⟩)] "t" ⟨0, "A", [("x", "0")]⟩) "t"
          = (out, st2, ("A", [("x", "0")]) :: rest) :=
  fault_does_not_advance_checkpoint (cgABC stepBoom stepLogB stepLogC)
    (cgABC stepLogA stepLogB stepLogC) [("t", ⟨0, "A", [("x", "0")]⟩)] "t"
    ⟨0, "A", [("x", "0")]⟩ stepBoom stepLogA [("log", "A")] 0 0
    rfl (by decide) (by decide) rfl rfl (by decide) rfl rfl

theorem resumeLoop_completed_pending (g : CGraph) :
    ∀ (fuel : Nat) (cp cp' : Checkpoint) (tr : List (String × State)),
      resumeLoop fuel g cp = (.Completed cp', tr) →
        cp'.pendingStepName = endSentinel := by
  intro fuel
  induction fuel with
  | zero =>
    intro cp cp' tr h
    simp [resumeLoop] at h
  | succ n ih =>
    intro cp cp' tr h
    simp only [resumeLoop] at h
    split at h
    · rename_i hend
      cases h
      simpa using hend
    · split at h
      · cases h
      · split at h
        · cases h
        · rename_i f hf
          split at h
          · cases h
          · rename_i u hu
            have h1 := congrArg Prod.fst h
            simp only at h1
            exact ih _ _ _ (Prod.ext h1 rfl)

theorem resumeLoop_completes (g : CGraph) (hbp : g.breakpoints = []) :
    ∀ (fuel : Nat) (cp : Checkpoint),
      reachesEnd g fuel cp.pendingStepName = true →
      (∀ nm ∈ chainNodes g fuel cp.pendingStepName,
        ∃ f, stepOf g nm = some f ∧ ∀ x, (f x).isSome) →
      ∃ cp' tr, resumeLoop (fuel + 1) g cp = (.Completed cp', tr) := by
  intro fuel
  induction fuel with
  | zero =>
    intro cp hreach _
    simp only [reachesEnd] at hreach
    exact ⟨cp, [], by simp [resumeLoop, hreach]⟩
  | succ n ih =>
    intro cp hreach hsteps
    by_cases hend : (cp.pendingStepName == endSentinel) = true
    · exact ⟨cp, [], by simp [resumeLoop, hend]⟩
    · simp only [reachesEnd, hend, Bool.false_or] at hreach
      simp only [chainNodes, hend, Bool.false_eq_true, if_false] at hsteps
      obtain ⟨f, hf, htot⟩ := hsteps _ (List.mem_cons_self _ _)
      obtain ⟨u, hu⟩ := Option.isSome_iff_exists.mp (htot cp.state)
      obtain ⟨cp'', tr, hloop⟩ :=
        ih ⟨cp.stepIndex + 1, succOf g cp.pendingStepName, mergeState cp.state u⟩
          hreach (fun nm hnm => hsteps nm (List.mem_cons_of_mem _ hnm))
      refine ⟨cp'', (cp.pendingStepName, cp.state) :: tr, ?_⟩
      have hend' : (cp.pendingStepName == endSentinel) = false := by simpa using hend
      have hc : g.breakpoints.contains cp.pendingStepName = false := by rw [hbp]; rfl
      conv_lhs => rw [resumeLoop]
      simp only [hend', hc, hf, hu, Bool.false_eq_true, if_false, hloop]

/-- C5: on a breakpoint-free Graph whose successor chain from the entry
Step reaches the terminal sentinel and whose Steps never fault, `run` on a
fresh thread returns Completed, and an immediately following `resume`
returns Completed with the same final state, the same store, and an empty
trace (no Step runs a second time). -/
theorem completed_resume_idempotent (g : CGraph) (st : Store) (t : String)
    (s0 : State) (fuel fuel2 : Nat)
    (hbp : g.breakpoints = [])
    (hfresh : getCp st t = none)
    (hreach : reachesEnd g fuel (entryStep g) = true)
    (hsteps : ∀ nm ∈ chainNodes g fuel (entryStep g),
      ∃ f, stepOf g nm = some f ∧ ∀ x, (f x).isSome) :
    ∃ fs st' tr,
      runE g (fuel + 1) st t s0 = (.Completed fs, st', tr)
      ∧ resumeE g (fuel2 + 1) st' t = (.Completed fs, st', []) := by
  obtain ⟨cp', tr, hloop⟩ :=
    resumeLoop_completes g hbp fuel ⟨0, entryStep g, s0⟩ hreach hsteps
  have hpend : cp'.pendingStepName = endSentinel :=
    resumeLoop_completed_pending g _ _ _ _ hloop
  have hget0 : getCp (putCp st t ⟨0, entryStep g, s0⟩) t
      = some ⟨0, entryStep g, s0⟩ := by
    rw [getCp, putCp, lookup_setAssoc]; simp
  have hget' : getCp (putCp (putCp st t ⟨0, entryStep g, s0⟩) t cp') t = some cp' := by
    rw [getCp, putCp, putCp, lookup_setAssoc]; simp
  have hendb : (cp'.pendingStepName == endSentinel) = true := by simp [hpend]
  refine ⟨cp'.state, putCp (putCp st t ⟨0, entryStep g, s0⟩) t cp', tr, ?_, ?_⟩
  · simp [runE, hfresh, resumeE, hget0, hloop]
  · have hidem : putCp (putCp (putCp st t ⟨0, entryStep g, s0⟩) t cp') t cp'
        = putCp (putCp st t ⟨0, entryStep g, s0⟩) t cp' := by
      simp only [putCp]
      exact setAssoc_idem _ _ _
    simp only [resumeE, hget', resumeLoop, hendb, if_true, hidem]

/-- C5 witness: the breakpoint-free chain `A -> B` run to completion and
resumed once more. -/
theorem completed_resume_idempotent_witness :
    ∃ fs st' tr,
      runE cgAB 3 [] "t" [("x", "0")] = (.Completed fs, st', tr)
      ∧ resumeE cgAB 1 st' "t" = (.Completed fs, st', []) :=
  completed_resume_idempotent cgAB [] "t" [("x", "0")] 2 0 rfl rfl (by decide)
    (by
      intro nm hnm
      have hnm' : nm = "A" ∨ nm = "B" := by
        simpa [chainNodes, entryStep, succOf, cgAB, endSentinel, List.lookup] using hnm
      rcases hnm' with h | h
      · exact h ▸ ⟨stepLogA, rfl, fun x => rfl⟩
      · exact h ▸ ⟨stepLogB, rfl, fun x => rfl⟩)

theorem getCp_putCp_same (st : Store) (t : String) (cp : Checkpoint) :
    getCp (putCp st t cp) t = some cp := by
  rw [getCp, putCp, lookup_setAssoc]; simp

theorem getCp_putCp_other (st : Store) (t t' : String) (cp : Checkpoint)
    (h : t' ≠ t) : getCp (putCp st t cp) t' = getCp st t' := by
  rw [getCp, putCp, lookup_setAssoc, getCp]
  simp [h]

theorem resumeE_store (g : CGraph) (fuel : Nat) (st : Store) (t : String)
    (cp : Checkpoint) (h : getCp st t = some cp) :
    (resumeE g fuel st t).2.1 = putCp st t ((resumeLoop fuel g cp).1).cp := by
  rcases hr : resumeLoop fuel g cp with ⟨lr, tr⟩
  cases lr <;> simp [resumeE, h, hr, LoopResult.cp]

theorem getCp_applyCall (g : CGraph) (fuel : Nat) (st : Store) (c : EngineCall)
    (t : String) :
    getCp (applyCall g fuel st c) t
      = if callThread c = t then threadView g fuel (getCp st t) c
        else getCp st t := by
  cases c with
  | runC s0 t0 =>
    by_cases ht : t0 = t
    · subst ht
      cases hcp : getCp st t0 with
      | none =>
        simp only [applyCall, runE, hcp]
        rw [resumeE_store g fuel _ t0 _ (getCp_putCp_same st t0 _)]
        simp [getCp_putCp_same, threadView, callThread]
      | some cp =>
        simp only [applyCall, runE, hcp]
        rw [resumeE_store g fuel st t0 cp hcp]
        simp [getCp_putCp_same, threadView, callThread, hcp]
    · cases hcp : getCp st t0 with
      | none =>
        simp only [applyCall, runE, hcp]
        rw [resumeE_store g fuel _ t0 _ (getCp_putCp_same st t0 _)]
        rw [getCp_putCp_other _ _ _ _ (fun he => ht he.symm),
          getCp_putCp_other _ _ _ _ (fun he => ht he.symm)]
        simp [callThread, ht]
      | some cp =>
        simp only [applyCall, runE, hcp]
        rw [resumeE_store g fuel st t0 cp hcp]
        rw [getCp_putCp_other _ _ _ _ (fun he => ht he.symm)]
        simp [callThread, ht]
  | resumeC t0 =>
    by_cases ht : t0 = t
    · subst ht
      cases hcp : getCp st t0 with
      | none => simp [applyCall, resumeE, hcp, threadView, callThread]
      | some cp =>
        simp only [applyCall]
        rw [resumeE_store g fuel st t0 cp hcp]
        simp [getCp_putCp_same, threadView, callThread, hcp]
    · cases hcp : getCp st t0 with
      | none => simp [applyCall, resumeE, hcp, callThread, ht]
      | some cp =>
        simp only [applyCall]
        rw [resumeE_store g fuel st t0 cp hcp]
        rw [getCp_putCp_other _ _ _ _ (fun he => ht he.symm)]
        simp [callThread, ht]
  | updateC p a t0 =>
    by_cases ht : t0 = t
    · subst ht
      cases hcp : getCp st t0 with
      | none => simp [applyCall, updateStateE, hcp, threadView, callThread]
      | some cp =>
        simp [applyCall, updateStateE, hcp, threadView, callThread,
          getCp_putCp_same]
    · cases hcp : getCp st t0 with
      | none => simp [applyCall, updateStateE, hcp, callThread, ht]
      | some cp =>
        simp only [applyCall, updateStateE, hcp, Option.getD_some]
        rw [getCp_putCp_other _ _ _ _ (fun he => ht he.symm)]
        simp [callThread, ht]

theorem getCp_applyCalls (g : CGraph) (fuel : Nat) :
    ∀ (cs : List EngineCall) (st : Store) (t : String),
      getCp (applyCalls g fuel st cs) t
        = List.foldl (threadView g fuel) (getCp st t)
            (cs.filter (fun c => callThread c == t)) := by
  intro cs
  induction cs with
  | nil => intro st t; rfl
  | cons c cs ih =>
    intro st t
    have hstep : applyCalls g fuel st (c :: cs)
        = applyCalls g fuel (applyCall g fuel st c) cs := rfl
    rw [hstep, ih, getCp_applyCall]
    by_cases ht : callThread c = t
    · simp [ht, List.filter]
    · have ht' : (callThread c == t) = false := by simpa using ht
      simp [ht, ht', List.filter]

/-- C6: the observable checkpoint of a thread after any interleaved
sequence of engine calls is a function only of that thread's initial
checkpoint and of the calls addressed to that thread — calls driving
other threadIds never leak into it. -/
theorem thread_noninterference (g : CGraph) (fuel : Nat) (t1 : String)
    (st st' : Store) (cs cs' : List EngineCall)
    (hinit : getCp st t1 = getCp st' t1)
    (hcalls : cs.filter (fun c => callThread c == t1)
      = cs'.filter (fun c => callThread c == t1)) :
    getCp (applyCalls g fuel st cs) t1 = getCp (applyCalls g fuel st' cs') t1 := by
  rw [getCp_applyCalls, getCp_applyCalls, hinit, hcalls]

/-- C6 witness: two runs differing only in a second thread's initial
checkpoint and calls agree on the first thread's checkpoint. -/
theorem thread_noninterference_witness :
    getCp (applyCalls cgAB 1 []
      [.runC [("a", "1")] "t1", .resumeC "t2"]) "t1"
      = getCp (applyCalls cgAB 1 [("t2", ⟨0, "A", []⟩)]
          [.runC [("a", "1")] "t1", .updateC [("z", "9")] "A" "t2"]) "t1" :=
  thread_noninterference cgAB 1 "t1" [] [("t2", ⟨0, "A", []⟩)]
    [.runC [("a", "1")] "t1", .resumeC "t2"]
    [.runC [("a", "1")] "t1", .updateC [("z", "9")] "A" "t2"]
    rfl rfl

theorem dupName_eq_false_iff (ns : List String) : dupName ns = false ↔ ns.Nodup := by
  induction ns with
  | nil => simp [dupName]
  | cons n t ih => simp [dupName, List.nodup_cons, ih, Bool.or_eq_false_iff]

theorem compile_cond_iff (d : GraphDef) :
    (!dupName (nodeNames d) && (outCount d "START" == 1)
      && d.edges.all (fun e => (nodeNames d).contains e.2)
      && (nodeNames d).all (fun n => decide (outCount d n ≤ 1))) = true
    ↔ ¬ structurallyInvalid d := by
  rw [structurallyInvalid]
  simp only [Bool.and_eq_true, Bool.not_eq_true', dupName_eq_false_iff,
    List.all_eq_true, beq_iff_eq, decide_eq_true_eq, not_or, not_exists,
    List.elem_iff, not_and, not_not]
  constructor
  · rintro ⟨⟨⟨hnd, hstart⟩, hdang⟩, hfan⟩
    refine ⟨?_, ?_, ?_, ?_⟩
    · intro e he
      exact hdang e he
    · intro n hn h0
      have := hfan n hn
      omega
    · exact hnd
    · exact hstart
  · rintro ⟨hdang, hfan, hnd, hstart⟩
    refine ⟨⟨⟨hnd, hstart⟩, hdang⟩, ?_⟩
    intro n hn
    have h1 := hfan n hn
    by_cases h0 : outCount d n = 0
    · omega
    · have h2 := h1 h0
      omega

/-- The human-in-the-loop chain compiles: it passes every structural
check, yielding the compiled graph used by the scenario theorems. -/
theorem compile_gABC (fA fB fC : State → Option State) :
    compile (gABC fA fB fC) = .ok (cgABC fA fB fC) := rfl

/-- C7: `compile` fails with `ErrGraphInvalid` exactly when the graph
definition is structurally invalid in the enumerated sense — a dangling
edge target, a non-terminal Step with an out-degree other than one, a
duplicated Step name, or a START out-degree other than one. -/
theorem compile_fails_iff_structurally_invalid (d : GraphDef) :
    compile d = .error .ErrGraphInvalid ↔ structurallyInvalid d := by
  by_cases h : (!dupName (nodeNames d) && (outCount d "START" == 1)
      && d.edges.all (fun e => (nodeNames d).contains e.2)
      && (nodeNames d).all (fun n => decide (outCount d n ≤ 1))) = true
  · rw [compile, if_pos h]
    have hni : ¬ structurallyInvalid d := (compile_cond_iff d).mp h
    simp [hni]
  · rw [compile, if_neg h]
    have hi : structurallyInvalid d := by
      by_contra hni
      exact h ((compile_cond_iff d).mpr hni)
    simp [hi]

/-- C8: `update_stock` is atomic with respect to parse failure — a
malformed `item_qty` yields a message starting `[Stock] Update error:`
with the stock untouched, and a well-formed one adds exactly `qty` to the
parsed item (defaulting from 0) while changing no other key. -/
theorem update_stock_atomic (stock : Stock) (input : String) :
    (parseItemQty input = none →
      (update_stock stock input).2 = stock
      ∧ ∃ r, (update_stock stock input).1 = "[Stock] Update error: " ++ r)
    ∧ (∀ it qty, parseItemQty input = some (it, qty) →
        List.lookup it (update_stock stock input).2
          = some ((List.lookup it stock).getD 0 + qty)
        ∧ ∀ k, k ≠ it →
            List.lookup k (update_stock stock input).2 = List.lookup k stock) := by
  constructor
  · intro hp
    refine ⟨by simp [update_stock, hp], "invalid item_qty", by simp [update_stock, hp]⟩
  · intro it qty hp
    constructor
    · simp [update_stock, hp, lookup_setAssoc]
    · intro k hk
      simp [update_stock, hp, lookup_setAssoc, hk]

/-- C8 witness: a malformed input (no comma) and a well-formed one. -/
theorem update_stock_atomic_witness :
    ((update_stock [("widget-b", 0)] "widget-b").2 = [("widget-b", 0)]
      ∧ ∃ r, (update_stock [("widget-b", 0)] "widget-b").1
          = "[Stock] Update error: " ++ r)
    ∧ (List.lookup "widget-b" (update_stock [("widget-b", 0)] "widget-b, 50").2
        = some ((List.lookup "widget-b" [("widget-b", 0)]).getD 0 + 50)
      ∧ ∀ k, k ≠ "widget-b" →
          List.lookup k (update_stock [("widget-b", 0)] "widget-b, 50").2
            = List.lookup k [("widget-b", 0)]) :=
  ⟨(update_stock_atomic [("widget-b", 0)] "widget-b").1 (by decide),
    (update_stock_atomic [("widget-b", 0)] "widget-b, 50").2 "widget-b" 50 (by decide)⟩

/-- C9: `deliberative_schedule` preserves non-negativity of the stock: it
only decrements when the current stock covers the quantity, and on
insufficient stock or a parse error it changes neither the stock nor the
outbound orders. -/
theorem deliberative_schedule_nonneg (stock : Stock) (orders : List (String × Int))
    (input : String) (hpos : ∀ kv ∈ stock, 0 ≤ kv.2) :
    (∀ kv ∈ (deliberative_schedule stock orders input).2.1, 0 ≤ kv.2)
    ∧ (parseItemQty input = none →
        (deliberative_schedule stock orders input).2.1 = stock
        ∧ (deliberative_schedule stock orders input).2.2 = orders)
    ∧ (∀ it qty, parseItemQty input = some (it, qty) →
        (List.lookup it stock).getD 0 < qty →
        (deliberative_schedule stock orders input).2.1 = stock
        ∧ (deliberative_schedule stock orders input).2.2 = orders) := by
  refine ⟨?_, ?_, ?_⟩
  · intro kv hkv
    rcases hp : parseItemQty input with _ | ⟨it, qty⟩
    · simp only [deliberative_schedule, hp] at hkv
      exact hpos _ hkv
    · have hcur : 0 ≤ (List.lookup it stock).getD 0 := by
        cases hl : List.lookup it stock with
        | none => simp
        | some v => simpa using hpos _ (mem_of_lookup_eq_some hl)
      simp only [deliberative_schedule, hp] at hkv
      by_cases hc : qty ≤ (List.lookup it stock).getD 0
      · rw [if_pos hc] at hkv
        rcases mem_setAssoc _ _ _ _ hkv with h1 | h2
        · rw [h1]
          simp only
          omega
        · exact hpos _ h2
      · rw [if_neg hc] at hkv
        exact hpos _ hkv
  · intro hp
    simp [deliberative_schedule, hp]
  · intro it qty hp hlt
    have hc : ¬ qty ≤ (List.lookup it stock).getD 0 := by omega
    simp [deliberative_schedule, hp, hc]

/-- C9 witness: a successful schedule on a non-negative stock. -/
theorem deliberative_schedule_nonneg_witness :
    (∀ kv ∈ (deliberative_schedule [("widget-a", 20)] [] "widget-a, 15").2.1,
      0 ≤ kv.2)
    ∧ (parseItemQty "widget-a, 15" = none →
        (deliberative_schedule [("widget-a", 20)] [] "widget-a, 15").2.1
          = [("widget-a", 20)]
        ∧ (deliberative_schedule [("widget-a", 20)] [] "widget-a, 15").2.2 = [])
    ∧ (∀ it qty, parseItemQty "widget-a, 15" = some (it, qty) →
        (List.lookup it [("widget-a", 20)]).getD 0 < qty →
        (deliberative_schedule [("widget-a", 20)] [] "widget-a, 15").2.1
          = [("widget-a", 20)]
        ∧ (deliberative_schedule [("widget-a", 20)] [] "widget-a, 15").2.2 = []) :=
  deliberative_schedule_nonneg [("widget-a", 20)] [] "widget-a, 15" (by decide)

/-- C10: `coordinator` always returns one of the four route names, with
fixed precedence on the lowercased input: stock/update keywords first,
then delivery/schedule/cost, then urgent/priority, else none. -/
theorem coordinator_routing (s : String) :
    (coordinator s = "stock" ∨ coordinator s = "delivery"
      ∨ coordinator s = "priority" ∨ coordinator s = "none")
    ∧ ((strContains (strLower s) "stock" || strContains (strLower s) "update") = true →
        coordinator s = "stock")
    ∧ ((strContains (strLower s) "stock" || strContains (strLower s) "update") = false →
        (strContains (strLower s) "delivery" || strContains (strLower s) "schedule"
          || strContains (strLower s) "cost") = true →
        coordinator s = "delivery")
    ∧ ((strContains (strLower s) "stock" || strContains (strLower s) "update") = false →
        (strContains (strLower s) "delivery" || strContains (strLower s) "schedule"
          || strContains (strLower s) "cost") = false →
        (strContains (strLower s) "urgent" || strContains (strLower s) "priority") = true →
        coordinator s = "priority")
    ∧ ((strContains (strLower s) "stock" || strContains (strLower s) "update") = false →
        (strContains (strLower s) "delivery" || strContains (strLower s) "schedule"
          || strContains (strLower s) "cost") = false →
        (strContains (strLower s) "urgent" || strContains (strLower s) "priority") = false →
        coordinator s = "none") := by
  by_cases h1 : (strContains (strLower s) "stock" || strContains (strLower s) "update") = true
    <;> by_cases h2 : (strContains (strLower s) "delivery"
      || strContains (strLower s) "schedule" || strContains (strLower s) "cost") = true
    <;> by_cases h3 : (strContains (strLower s) "urgent"
      || strContains (strLower s) "priority") = true
    <;> simp [coordinator, h1, h2, h3]

/-- C10 witness: one input per route, including a mixed-keyword input that
takes the stock branch by precedence. -/
theorem coordinator_routing_witness :
    coordinator "Update stock and schedule urgent delivery" = "stock"
    ∧ coordinator "schedule a delivery" = "delivery"
    ∧ coordinator "urgent please" = "priority"
    ∧ coordinator "hello" = "none" :=
  ⟨(coordinator_routing "Update stock and schedule urgent delivery").2.1 (by decide),
    (coordinator_routing "schedule a delivery").2.2.1 (by decide) (by decide),
    (coordinator_routing "urgent please").2.2.2.1 (by decide) (by decide) (by decide),
    (coordinator_routing "hello").2.2.2.2 (by decide) (by decide) (by decide)⟩

end CaltechAdvanced
